import Mathlib

/-!
Verification development for the `fnlint` filename-convention linter.

The Rust sources are embedded shallowly: strings are manipulated as `List Char`
(`String.data`), the precompiled regular expressions of `src/config/mod.rs`
become decidable predicates that mirror each regex literally, the linter of
`src/linter/mod.rs` and `src/linter/visitor.rs` becomes pure list processing,
and the scanner of `src/scan/scanner.rs` becomes an `Except`-valued filter over
the entry list produced by the (unpruned) `walkdir` traversal, where
`Except.error` models a Rust panic (`unwrap` on a failed regex compilation).
-/

namespace Fnlint

/-- ASCII lowercase letter test: the character class `[a-z]`. -/
def isLowerAlpha (c : Char) : Bool :=
  'a' ≤ c && c ≤ 'z'

/-- ASCII uppercase letter test: the character class `[A-Z]`. -/
def isUpperAlpha (c : Char) : Bool :=
  'A' ≤ c && c ≤ 'Z'

/-- ASCII digit test: the character class `[0-9]`. -/
def isDigitCh (c : Char) : Bool :=
  '0' ≤ c && c ≤ '9'

/-- The character class `[a-z0-9]`. -/
def isLowerNum (c : Char) : Bool :=
  isLowerAlpha c || isDigitCh c

/-- Rust `str::starts_with` on character lists: the second list is a prefix of
the first. -/
def listStartsWith : List Char → List Char → Bool
  | _, [] => true
  | [], _ :: _ => false
  | c :: cs, p :: ps => c == p && listStartsWith cs ps

/-- Rust `str::contains` (substring containment) on character lists. -/
def strContainsL : List Char → List Char → Bool
  | [], pat => listStartsWith [] pat
  | c :: cs, pat => listStartsWith (c :: cs) pat || strContainsL cs pat

/-- Rust `str::ends_with` on character lists. -/
def listEndsWith (l suf : List Char) : Bool :=
  listStartsWith l.reverse suf.reverse

/-- Worker for `splitOnChar`; `acc` holds the current segment reversed. -/
def splitOnCharAux (sep : Char) (acc : List Char) : List Char → List (List Char)
  | [] => [acc.reverse]
  | c :: cs =>
    if c == sep then acc.reverse :: splitOnCharAux sep [] cs
    else splitOnCharAux sep (c :: acc) cs

/-- Rust `str::split(sep)` on character lists: every separator occurrence cuts,
so the empty string yields `[[]]` and `"/"` yields `[[], []]`, exactly as
`"".split('/')` and `"/".split('/')` do in Rust. -/
def splitOnChar (sep : Char) (l : List Char) : List (List Char) :=
  splitOnCharAux sep [] l

/-- Fuel-bounded worker for `replaceL`.  Each step either copies one character
or consumes a whole (nonempty) occurrence of `pat`, so fuel equal to the length
of the input list always suffices. -/
def replaceFuel (pat rep : List Char) : Nat → List Char → List Char
  | 0, l => l
  | _ + 1, [] => []
  | fuel + 1, c :: cs =>
    if !pat.isEmpty && listStartsWith (c :: cs) pat then
      rep ++ replaceFuel pat rep fuel ((c :: cs).drop pat.length)
    else
      c :: replaceFuel pat rep fuel cs

/-- Rust `str::replace(pat, rep)`: leftmost, non-overlapping replacement of
every occurrence of `pat` by `rep`.  The scanner only ever calls it with the
nonempty patterns `"**"` and `"*"`. -/
def replaceL (pat rep l : List Char) : List Char :=
  replaceFuel pat rep l.length l

/-- Fuel-bounded worker for `trimEndList`.  Each iteration removes the nonempty
suffix `ext`, so fuel equal to the initial length always suffices. -/
def trimEndFuel (ext : List Char) : Nat → List Char → List Char
  | 0, l => l
  | fuel + 1, l =>
    if !ext.isEmpty && listEndsWith l ext then
      trimEndFuel ext fuel (l.take (l.length - ext.length))
    else l

/-- Rust `str::trim_end_matches(ext)`: repeatedly strip the suffix `ext`.
For an empty `ext` it returns the list unchanged, as Rust does. -/
def trimEndList (l ext : List Char) : List Char :=
  trimEndFuel ext l.length l

/-- The regex `^[a-z0-9]+$`: the source's `none_split` (and `lower_case`)
pattern, a nonempty run of lowercase letters and digits. -/
def none_split (l : List Char) : Bool :=
  !l.isEmpty && l.all isLowerNum

/-- The regex `^[a-z0-9_]+$`: the source's `snake_case` pattern. -/
def snake_case (l : List Char) : Bool :=
  !l.isEmpty && l.all (fun c => isLowerNum c || c == '_')

/-- The regex `^[A-Z0-9_]+$`: the source's `screaming_snake_case` pattern. -/
def screaming_snake_case (l : List Char) : Bool :=
  !l.isEmpty && l.all (fun c => isUpperAlpha c || isDigitCh c || c == '_')

/-- DFA for a regex of shape `^[a-z0-9]+(sep[a-z0-9]+)*$`.  `inSeg` records
whether the previous character belongs to a `[a-z0-9]+` run (only there may the
automaton stop or read a separator); a separator resets `inSeg`, so the next
character must again be in `[a-z0-9]`. -/
def segsAux (sep : Char) : Bool → List Char → Bool
  | inSeg, [] => inSeg
  | inSeg, c :: cs =>
    if isLowerNum c then segsAux sep true cs
    else if c == sep && inSeg then segsAux sep false cs
    else false

/-- The regex `^[a-z0-9]+(sep[a-z0-9]+)*$` for a separator character `sep`. -/
def segsPat (sep : Char) (l : List Char) : Bool :=
  segsAux sep false l

/-- The source's `kebab_case` pattern `^[a-z0-9]+(-[a-z0-9]+)*$`. -/
def kebab_case (l : List Char) : Bool := segsPat '-' l

/-- The source's `point_case` pattern `^[a-z0-9]+(\.[a-z0-9]+)*$`. -/
def point_case (l : List Char) : Bool := segsPat '.' l

/-- DFA for the regex fragment `([A-Z][a-z0-9]*)*` matched against a whole
list.  Word starts are exactly the uppercase letters, so the automaton is
deterministic: an uppercase letter always begins a new word, a lowercase letter
or digit continues the current word (legal only when `inWord` is true), and
every word boundary is accepting. -/
def capWordsAux : Bool → List Char → Bool
  | _, [] => true
  | inWord, c :: cs =>
    if isUpperAlpha c then capWordsAux true cs
    else if inWord && isLowerNum c then capWordsAux true cs
    else false

/-- The regex fragment `([A-Z][a-z0-9]*)*` as a whole-list match. -/
def capWords (l : List Char) : Bool :=
  capWordsAux false l

/-- Tail of the `camel_case` regex after the leading `[a-z]+` run: keep
consuming lowercase letters; the first other character must begin the
`([A-Z][a-z0-9]*)*` word sequence. -/
def camelAux : List Char → Bool
  | [] => true
  | c :: cs => if isLowerAlpha c then camelAux cs else capWords (c :: cs)

/-- The source's `camel_case` pattern `^[a-z]+([A-Z][a-z0-9]*)*$`. -/
def camel_case : List Char → Bool
  | [] => false
  | c :: cs => isLowerAlpha c && camelAux cs

/-- Tail of the first Pascal word after its `[A-Z][a-z0-9]` start: keep
consuming lowercase letters and digits; the first other character must begin
the `([A-Z][a-z0-9]*)*` word sequence. -/
def pascalTail : List Char → Bool
  | [] => true
  | c :: cs => if isLowerNum c then pascalTail cs else capWords (c :: cs)

/-- Continuation of `pascal_case` after the leading `[A-Z]`: the `[a-z0-9]+`
part demands at least one lowercase letter or digit. -/
def pascalAux : List Char → Bool
  | [] => false
  | c :: cs => isLowerNum c && pascalTail cs

/-- The source's `pascal_case` pattern `^[A-Z][a-z0-9]+([A-Z][a-z0-9]*)*$`. -/
def pascal_case : List Char → Bool
  | [] => false
  | c :: cs => isUpperAlpha c && pascalAux cs

/-- The source's `lower_case` pattern `^[a-z0-9]+$` (same regex as
`none_split`). -/
def lower_case (l : List Char) : Bool := none_split l

/-- The `FilenameCase` enumeration of `src/config/mod.rs`. -/
inductive FilenameCase where
  | Lower
  | Snake
  | Camel
  | Kebab
  | Pascal
  | Point
  | ScreamingSnake
deriving DecidableEq

/-- `FilenameCase::matches` of `src/config/mod.rs`.  The initial `none_split`
test mirrors the early `return true`; the source's guarded match arms that
repeat this test for `Lower`, `Point`, `Snake`, `Kebab` and `Camel` are
unreachable after the early return and therefore have no separate image
here. -/
def FilenameCase.matches (c : FilenameCase) (filename : String) : Bool :=
  if none_split filename.data then true
  else
    match c with
    | .Snake => snake_case filename.data
    | .Camel => camel_case filename.data
    | .Kebab => kebab_case filename.data
    | .Pascal => pascal_case filename.data
    | .Lower => lower_case filename.data
    | .Point => point_case filename.data
    | .ScreamingSnake => screaming_snake_case filename.data

/-- `FromStr for FilenameCase` of `src/config/mod.rs`. -/
def FilenameCase.from_str (s : String) : Except String FilenameCase :=
  if s = "lowercase" then .ok .Lower
  else if s = "snake_case" then .ok .Snake
  else if s = "camelCase" then .ok .Camel
  else if s = "kebab-case" then .ok .Kebab
  else if s = "Pascal" then .ok .Pascal
  else if s = "point.case" then .ok .Point
  else if s = "SCREAMING_SNAKE_CASE" then .ok .ScreamingSnake
  else .error ("Unknown filename case: " ++ s)

/-- `Display for FilenameCase` of `src/config/mod.rs`. -/
def FilenameCase.display : FilenameCase → String
  | .Lower => "lowercase"
  | .Snake => "snake_case"
  | .Camel => "camelCase"
  | .Kebab => "kebab-case"
  | .Pascal => "Pascal"
  | .Point => "point.case"
  | .ScreamingSnake => "SCREAMING_SNAKE_CASE"

/-- The `Issue` record of `src/linter/mod.rs` (the `Arc` around the target
list is erased; the list is shared by value). -/
structure Issue where
  filename : String
  target : List FilenameCase
  path : String
deriving DecidableEq

/-- `lint_name` of `src/linter/mod.rs`: take the last `/`-separated component
of the path, strip every trailing occurrence of `ext`, and produce an `Issue`
exactly when no configured style matches the resulting stem. -/
def lint_name (path : String) (patterns : List FilenameCase) (ext : String) :
    Option Issue :=
  match (splitOnChar '/' path.data).getLast? with
  | none => none
  | some fname =>
    let stem := String.mk (trimEndList fname ext.data)
    if patterns.any (fun p => p.matches stem) then none
    else some { filename := stem, target := patterns, path := path }

/-- `lint_files` of `src/linter/mod.rs`. -/
def lint_files (files : List String) (ext : String)
    (patterns : List FilenameCase) : List Issue :=
  files.filterMap (fun p => lint_name p patterns ext)

/-- Rust `str::ends_with` on strings. -/
def strEndsWith (s suf : String) : Bool :=
  listEndsWith s.data suf.data

/-- `lint_filenames` of `src/linter/visitor.rs`; the iteration over the
`HashMap` entries is modelled as iteration over an association list. -/
def lint_filenames (ls : List (String × List FilenameCase))
    (fileList : List String) : List Issue :=
  ls.flatMap (fun ep =>
    lint_files (fileList.filter (fun f => strEndsWith f ep.1)) ep.1 ep.2)

/-- Token of the embedded regex fragment: a literal character, the
match-any-character `.`, or the match-any-run `.*`. -/
inductive RTok where
  | lit (c : Char)
  | dot
  | dotStar
deriving DecidableEq

/-- Full match of a token sequence against a character list. -/
def toksMatch : List RTok → List Char → Bool
  | [], l => l.isEmpty
  | .lit _ :: _, [] => false
  | .lit c :: ts, x :: xs => x == c && toksMatch ts xs
  | .dot :: _, [] => false
  | .dot :: ts, _ :: xs => toksMatch ts xs
  | .dotStar :: ts, l => (List.range (l.length + 1)).any (fun i => toksMatch ts (l.drop i))

/-- A compiled regex of the embedded fragment: a token sequence and whether the
pattern ended in a `$` end-of-string anchor. -/
structure RegexProg where
  toks : List RTok
  anchorEnd : Bool
deriving DecidableEq

/-- Metacharacters that put a pattern outside the embedded fragment.  A body
containing one of them (outside the handled `.`/`.*`/trailing-`$` forms) is
conservatively rejected by `compileRegex`. -/
def isMetaCh (c : Char) : Bool :=
  c == '(' || c == ')' || c == '[' || c == ']' || c == '{' || c == '}' ||
  c == '*' || c == '+' || c == '?' || c == '|' || c == '\\' || c == '^' || c == '$'

/-- Parse the body of a regex in the embedded fragment: `.*` becomes a
match-any-run token, `.` a match-any-character token, and every
non-metacharacter a literal. -/
def parseToks : List Char → Option (List RTok)
  | [] => some []
  | '.' :: '*' :: rest => (parseToks rest).map (fun ts => RTok.dotStar :: ts)
  | '.' :: rest => (parseToks rest).map (fun ts => RTok.dot :: ts)
  | c :: rest =>
    if isMetaCh c then none
    else (parseToks rest).map (fun ts => RTok.lit c :: ts)

/-- Modelled from the external `regex` crate, restricted to the fragment the
scanner's glob translations can produce in the scenarios below: an optional
trailing `$` anchor preceded by literal characters, `.` and `.*`.  The result
is `none` when the pattern falls outside this fragment; in particular
`Regex::new` genuinely rejects every pattern with an unmatched `(`, which is
the only kind of invalid pattern the development exercises. -/
def compileRegex (pattern : List Char) : Option RegexProg :=
  match pattern.getLast? with
  | some '$' => (parseToks pattern.dropLast).map (fun ts => { toks := ts, anchorEnd := true })
  | _ => (parseToks pattern).map (fun ts => { toks := ts, anchorEnd := false })

/-- `Regex::is_match`: unanchored search.  Some suffix position `i` starts a
match; with an end anchor the match must extend to the end of the string,
without one it may stop at any `j`. -/
def regexSearch (re : RegexProg) (s : List Char) : Bool :=
  (List.range (s.length + 1)).any (fun i =>
    if re.anchorEnd then toksMatch re.toks (s.drop i)
    else (List.range ((s.drop i).length + 1)).any
      (fun j => toksMatch re.toks ((s.drop i).take j)))

/-- Decidable equality for `Except`, used to evaluate scanner runs in closed
statements. -/
instance instDecEqExcept {ε α : Type} [DecidableEq ε] [DecidableEq α] :
    DecidableEq (Except ε α) := fun a b =>
  match a, b with
  | .ok x, .ok y =>
    if h : x = y then isTrue (by rw [h]) else isFalse (by intro hc; cases hc; exact h rfl)
  | .error x, .error y =>
    if h : x = y then isTrue (by rw [h]) else isFalse (by intro hc; cases hc; exact h rfl)
  | .ok _, .error _ => isFalse (by intro hc; cases hc)
  | .error _, .ok _ => isFalse (by intro hc; cases hc)

/-- One filesystem entry as the `walkdir` iterator presents it: its path
string and whether it is a regular file. -/
structure Entry where
  path : String
  isFile : Bool
deriving DecidableEq

/-- Step 3 of `is_ignored`: strip every `**`, drop one trailing `/`, and
append the `$` anchor. -/
def globDouble (pattern : List Char) : List Char :=
  let p := replaceL ['*', '*'] [] pattern
  let p := if p.getLast? == some '/' then p.dropLast else p
  p ++ ['$']

/-- Step 4 of `is_ignored`: replace every `*` by `.*`. -/
def globSingle (pattern : List Char) : List Char :=
  replaceL ['*'] ['.', '*'] pattern

/-- Rust `Path::file_name`, modelled as the last `/`-separated component of
the path string (the `.`/`..` normalization corners of `Path` are outside the
model; no scenario below produces such a path). -/
def basenameL (l : List Char) : List Char :=
  (splitOnChar '/' l).getLastD []

/-- The body of the per-pattern closure in `is_ignored` of
`src/scan/scanner.rs`, with `Except.error ()` modelling the `unwrap` panic on
a regex that fails to compile.  The four checks are tried in order: any
`/`-segment of the pattern occurring as a substring of the path; for files,
the whole pattern occurring as a substring of the path; the `**` glob compiled
against the whole path; the `*` glob compiled against the basename only. -/
def checkPattern (e : Entry) (pattern : String) : Except Unit Bool :=
  let pathL := e.path.data
  let patL := pattern.data
  if (splitOnChar '/' patL).any (fun level => strContainsL pathL level) then .ok true
  else if e.isFile && strContainsL pathL patL then .ok true
  else if strContainsL patL ['*', '*'] then
    match compileRegex (globDouble patL) with
    | none => .error ()
    | some re => .ok (regexSearch re pathL)
  else if strContainsL patL ['*'] then
    match compileRegex (globSingle patL) with
    | none => .error ()
    | some re => .ok (regexSearch re (basenameL pathL))
  else .ok false

/-- `is_ignored` of `src/scan/scanner.rs`: `Iterator::any` over the ignore
patterns, short-circuiting on the first match and propagating a panic the
moment a pattern's compilation fails. -/
def is_ignored (e : Entry) (ignore : List String) : Except Unit Bool :=
  match ignore with
  | [] => .ok false
  | p :: ps =>
    match checkPattern e p with
    | .error er => .error er
    | .ok true => .ok true
    | .ok false => is_ignored e ps

/-- The filter/collect pipeline of `scan_dir` applied to the entry list: keep
the paths of non-ignored regular files, propagating the first panic in entry
order (the Rust iterator is consumed sequentially by `collect`). -/
def scanGo (ignore : List String) : List Entry → Except Unit (List String)
  | [] => .ok []
  | e :: es =>
    match is_ignored e ignore with
    | .error er => .error er
    | .ok ign =>
      match scanGo ignore es with
      | .error er => .error er
      | .ok rest => .ok (if !ign && e.isFile then e.path :: rest else rest)

/-- `scan_dir` of `src/scan/scanner.rs`, with the filesystem modelled as the
full entry list that the `walkdir` traversal yields: the source never calls
the iterator's pruning facilities, so every entry beneath the root reaches the
filter chain. -/
def scan_dir (fs : List Entry) (ignore : List String) : Except Unit (List String) :=
  scanGo ignore fs

/-- A pattern whose derived regex compiles whenever its glob branch is
reached: if it contains `**`, its step-3 translation compiles; otherwise if it
contains `*`, its step-4 translation compiles; patterns without `*` never
compile anything. -/
def patternSafe (q : String) : Bool :=
  if strContainsL q.data ['*', '*'] then (compileRegex (globDouble q.data)).isSome
  else if strContainsL q.data ['*'] then (compileRegex (globSingle q.data)).isSome
  else true

/-- The entry `e` lies strictly inside the directory entry `d`'s subtree:
`d`'s path followed by `/` is a prefix of `e`'s path. -/
def inSubtree (d e : Entry) : Bool :=
  listStartsWith e.path.data (d.path.data ++ ['/'])

/-- The Snake grammar as the specification words it: the anchored regular
expression `^[a-z0-9]+(_[a-z0-9]+)*$` (runs of lowercase alphanumerics joined
by single underscores, no leading/trailing underscore). -/
def snake_spec_regex (s : String) : Bool :=
  segsPat '_' s.data

/-- DFA state for `pascal_spec_grammar`: `needLower` is true directly after an
uppercase letter, where the specification's word grammar `[A-Z][a-z0-9]+`
still owes at least one lowercase letter or digit. -/
def pascalStrictAux : Bool → List Char → Bool
  | needLower, [] => !needLower
  | needLower, c :: cs =>
    if needLower then isLowerNum c && pascalStrictAux false cs
    else if isLowerNum c then pascalStrictAux false cs
    else isUpperAlpha c && pascalStrictAux true cs

/-- The Pascal grammar as the specification words it: one or more capitalized
words, each an uppercase letter followed by at least one lowercase letter or
digit (`^([A-Z][a-z0-9]+)+$`), with no separators. -/
def pascal_spec_grammar (s : String) : Bool :=
  match s.data with
  | c :: cs => isUpperAlpha c && pascalStrictAux true cs
  | [] => false

/-- `none_split` unpacked into its two conjuncts. -/
lemma none_split_eq_true (l : List Char) :
    none_split l = true ↔ l ≠ [] ∧ ∀ c ∈ l, isLowerNum c = true := by
  unfold none_split
  cases l with
  | nil => simp
  | cons a t => simp [List.all_eq_true]

/-- A nonempty list all of whose characters satisfy `isLowerNum` passes
`none_split`. -/
lemma none_split_of_all (l : List Char) (h1 : l ≠ [])
    (h2 : ∀ c ∈ l, isLowerNum c = true) : none_split l = true :=
  (none_split_eq_true l).mpr ⟨h1, h2⟩

/-- C1 counterexample: the stem `"_a"` has a leading underscore, hence fails
the specification's Snake regex, yet the code's classifier accepts it. -/
theorem c1_counterexample :
    FilenameCase.matches FilenameCase.Snake "_a" = true ∧
      snake_spec_regex "_a" = false := by
  decide

/-- C1 amended: `conforms(Snake, s)` holds iff `s` is a nonempty string of
lowercase letters, digits and underscores (the regex `^[a-z0-9_]+$`); leading,
trailing and doubled underscores all conform. -/
theorem c1_snake_matches_iff (s : String) :
    FilenameCase.matches FilenameCase.Snake s = true ↔
      (s.data ≠ [] ∧ ∀ c ∈ s.data, (isLowerNum c || c == '_') = true) := by
  unfold FilenameCase.matches
  cases h : none_split s.data with
  | false =>
    simp only [h, Bool.false_eq_true, if_false]
    unfold snake_case
    cases s.data with
    | nil => simp
    | cons a t => simp [List.all_eq_true]
  | true =>
    simp only [h, if_true, true_iff]
    obtain ⟨h1, h2⟩ := (none_split_eq_true s.data).mp h
    exact ⟨h1, fun c hc => by simp [h2 c hc]⟩

/-- C4: any nonempty stem of lowercase letters and digits (the regex
`^[a-z0-9]+$`) conforms to every configured style; the `none_split` escape is
evaluated before any style-specific grammar. -/
theorem c4_universal_escape (s : String) (h1 : s.data ≠ [])
    (h2 : ∀ c ∈ s.data, isLowerNum c = true) (style : FilenameCase) :
    style.matches s = true := by
  unfold FilenameCase.matches
  simp [none_split_of_all s.data h1 h2]

/-- C4 witness: the stem `"v2"` conforms to all seven styles. -/
theorem c4_universal_escape_witness :
    FilenameCase.matches FilenameCase.Lower "v2" = true ∧
    FilenameCase.matches FilenameCase.Snake "v2" = true ∧
    FilenameCase.matches FilenameCase.Camel "v2" = true ∧
    FilenameCase.matches FilenameCase.Kebab "v2" = true ∧
    FilenameCase.matches FilenameCase.Pascal "v2" = true ∧
    FilenameCase.matches FilenameCase.Point "v2" = true ∧
    FilenameCase.matches FilenameCase.ScreamingSnake "v2" = true :=
  ⟨c4_universal_escape "v2" (by decide) (by decide) _,
   c4_universal_escape "v2" (by decide) (by decide) _,
   c4_universal_escape "v2" (by decide) (by decide) _,
   c4_universal_escape "v2" (by decide) (by decide) _,
   c4_universal_escape "v2" (by decide) (by decide) _,
   c4_universal_escape "v2" (by decide) (by decide) _,
   c4_universal_escape "v2" (by decide) (by decide) _⟩

/-- C6 counterexample: `"AbC"` ends in a lone capital, so the specification's
Pascal grammar rejects it, yet the code's classifier accepts it. -/
theorem c6_counterexample :
    FilenameCase.matches FilenameCase.Pascal "AbC" = true ∧
      pascal_spec_grammar "AbC" = false := by
  decide

/-- In the word-sequence automaton, once a word has started the remaining
characters may be any mix of uppercase letters and lowercase alphanumerics. -/
lemma capWordsAux_true_eq_all (l : List Char) :
    capWordsAux true l = l.all (fun c => isUpperAlpha c || isLowerNum c) := by
  induction l with
  | nil => rfl
  | cons c cs ih =>
    unfold capWordsAux
    cases hu : isUpperAlpha c with
    | true => simp [hu, ih]
    | false =>
      cases hl : isLowerNum c with
      | true => simp [hu, hl, ih]
      | false => simp [hu, hl]

/-- The tail of the first Pascal word accepts exactly the lists whose
characters are uppercase letters or lowercase alphanumerics. -/
lemma pascalTail_eq_all (l : List Char) :
    pascalTail l = l.all (fun c => isUpperAlpha c || isLowerNum c) := by
  induction l with
  | nil => rfl
  | cons c cs ih =>
    unfold pascalTail capWords capWordsAux
    cases hl : isLowerNum c with
    | true => simp [hl, ih]
    | false =>
      cases hu : isUpperAlpha c with
      | true => simp [hl, hu, capWordsAux_true_eq_all]
      | false => simp [hl, hu]

/-- C6 amended: `conforms(Pascal, s)` holds iff `s` is plain lowercase
alphanumeric (the universal escape) or starts with an uppercase letter
followed by at least one lowercase letter or digit, after which any mix of
uppercase letters and lowercase alphanumerics is allowed — so only the FIRST
word owes a lowercase/digit character, and later lone capitals conform. -/
theorem c6_pascal_matches_iff (s : String) :
    FilenameCase.matches FilenameCase.Pascal s = true ↔
      (none_split s.data = true ∨
        ∃ c c2 rest, s.data = c :: c2 :: rest ∧ isUpperAlpha c = true ∧
          isLowerNum c2 = true ∧
          ∀ x ∈ rest, (isUpperAlpha x || isLowerNum x) = true) := by
  cases h : none_split s.data with
  | true =>
    unfold FilenameCase.matches
    simp [h]
  | false =>
    unfold FilenameCase.matches
    simp only [h, Bool.false_eq_true, if_false, false_or]
    unfold pascal_case
    cases hd : s.data with
    | nil => simp [hd]
    | cons c cs =>
      cases cs with
      | nil =>
        unfold pascalAux
        simp [hd]
      | cons c2 rest =>
        unfold pascalAux
        simp only [hd, pascalTail_eq_all, List.all_eq_true, Bool.and_eq_true,
          Bool.or_eq_true, List.cons.injEq]
        constructor
        · rintro ⟨h2, h3, h4⟩
          exact ⟨c, c2, rest, ⟨rfl, rfl, rfl⟩, h2, h3, h4⟩
        · rintro ⟨c', c2', rest', ⟨rfl, rfl, rfl⟩, h2, h3, h4⟩
          exact ⟨h2, h3, h4⟩

/-- C7: the `FilenameCase` string encoding is exactly bidirectional — parsing
the display of any style returns that style, and any string that is not one of
the seven canonical names parses to a configuration error. -/
theorem c7_roundtrip :
    (∀ c : FilenameCase, FilenameCase.from_str c.display = Except.ok c) ∧
      (∀ s : String, (∀ c : FilenameCase, c.display ≠ s) →
        FilenameCase.from_str s = Except.error ("Unknown filename case: " ++ s)) := by
  constructor
  · intro c; cases c <;> rfl
  · intro s h
    unfold FilenameCase.from_str
    split_ifs with h1 h2 h3 h4 h5 h6 h7
    · exact absurd h1.symm (h FilenameCase.Lower)
    · exact absurd h2.symm (h FilenameCase.Snake)
    · exact absurd h3.symm (h FilenameCase.Camel)
    · exact absurd h4.symm (h FilenameCase.Kebab)
    · exact absurd h5.symm (h FilenameCase.Pascal)
    · exact absurd h6.symm (h FilenameCase.Point)
    · exact absurd h7.symm (h FilenameCase.ScreamingSnake)
    · rfl

/-- C7 witness: a string outside the seven canonical names parses to the
configuration error the source formats. -/
theorem c7_roundtrip_witness :
    FilenameCase.from_str "mixed-Case" =
      Except.error ("Unknown filename case: " ++ "mixed-Case") :=
  c7_roundtrip.2 "mixed-Case" (by intro c; cases c <;> decide)

/-- What a produced `Issue` looks like: `lint_name` keeps the input path and
the configured styles, and it only fires when every configured style fails on
the stem. -/
lemma lint_name_eq_some (path : String) (patterns : List FilenameCase)
    (ext : String) (i : Issue) (h : lint_name path patterns ext = some i) :
    i.path = path ∧ i.target = patterns ∧
      ∀ c ∈ patterns, c.matches i.filename = false := by
  unfold lint_name at h
  split at h
  · exact absurd h (by simp)
  · next fname heq =>
    simp only [] at h
    split at h
    · exact absurd h (by simp)
    · next hany =>
      injection h with h'
      subst h'
      refine ⟨rfl, rfl, ?_⟩
      intro c hc
      have hfalse : patterns.any
          (fun p => p.matches (String.mk (trimEndList fname ext.data))) = false :=
        Bool.not_eq_true _ ▸ Bool.of_not_eq_true hany
      have := List.any_eq_false.mp hfalse c hc
      simpa using this

/-- Every issue of `lint_files` originates from one of the input paths. -/
lemma lint_files_path_mem (files : List String) (ext : String)
    (patterns : List FilenameCase) (issue : Issue)
    (h : issue ∈ lint_files files ext patterns) : issue.path ∈ files := by
  obtain ⟨q, hq, hsome⟩ := List.mem_filterMap.mp h
  rw [(lint_name_eq_some q patterns ext issue hsome).1]
  exact hq

/-- C5: every emitted `Issue` carries a stem that fails every style of its
attached rule set — both at the `lint_files` layer and through the
`lint_filenames` orchestrator — and one input file yields at most one issue
per extension rule (the issue count for a path is bounded by that path's
multiplicity in the input list). -/
theorem c5_issue_invariant (files fileList : List String) (ext p : String)
    (patterns : List FilenameCase) (ls : List (String × List FilenameCase)) :
    (∀ issue ∈ lint_files files ext patterns, ∀ c ∈ issue.target,
        c.matches issue.filename = false) ∧
    (∀ issue ∈ lint_filenames ls fileList, ∀ c ∈ issue.target,
        c.matches issue.filename = false) ∧
    (lint_files files ext patterns).countP (fun i => i.path == p) ≤
      files.count p := by
  have part1 : ∀ (fs : List String) (e : String) (ps : List FilenameCase),
      ∀ issue ∈ lint_files fs e ps, ∀ c ∈ issue.target,
        c.matches issue.filename = false := by
    intro fs e ps issue hmem c hc
    obtain ⟨q, _, hsome⟩ := List.mem_filterMap.mp hmem
    obtain ⟨-, ht, hall⟩ := lint_name_eq_some q ps e issue hsome
    exact hall c (ht ▸ hc)
  refine ⟨part1 files ext patterns, ?_, ?_⟩
  · intro issue hmem c hc
    obtain ⟨ep, _, hin⟩ := List.mem_flatMap.mp hmem
    exact part1 _ _ _ issue hin c hc
  · induction files with
    | nil => simp [lint_files]
    | cons f t ih =>
      unfold lint_files at ih ⊢
      rw [List.filterMap_cons, List.count_cons]
      cases hn : lint_name f patterns ext with
      | none => exact le_trans ih (by omega)
      | some i =>
        have hip : i.path = f := (lint_name_eq_some f patterns ext i hn).1
        rw [List.countP_cons, hip]
        by_cases hfp : (f == p) = true
        · simp only [hfp, if_true]; omega
        · simp only [hfp, if_false]; omega

/-- C5 witness: from the concrete run on `src/helloWorld.js` under a
Snake-only rule, the emitted issue's stem indeed fails Snake. -/
theorem c5_issue_invariant_witness :
    FilenameCase.matches FilenameCase.Snake "helloWorld" = false :=
  (c5_issue_invariant ["src/helloWorld.js"] [] ".js" "x" [FilenameCase.Snake] []).1
    ⟨"helloWorld", [FilenameCase.Snake], "src/helloWorld.js"⟩ (by decide)
    FilenameCase.Snake (by decide)

/-- C8: a file whose path ends with no configured extension key never appears
in the orchestrator's issue list, whatever its name. -/
theorem c8_unconfigured_extension (ls : List (String × List FilenameCase))
    (fileList : List String) (p : String)
    (h : ∀ ep ∈ ls, strEndsWith p ep.1 = false) :
    ∀ issue ∈ lint_filenames ls fileList, issue.path ≠ p := by
  intro issue hmem heq
  obtain ⟨ep, hep, hin⟩ := List.mem_flatMap.mp hmem
  have hpm := lint_files_path_mem _ _ _ _ hin
  rw [heq] at hpm
  have hends := (List.mem_filter.mp hpm).2
  rw [h ep hep] at hends
  exact absurd hends (by simp)

/-- C8 witness: with only `.js` configured, the badly named `a.txt` never
appears among the issues. -/
theorem c8_unconfigured_extension_witness :
    (⟨"helloWorld", [FilenameCase.Snake], "helloWorld.js"⟩ : Issue).path ≠
      "a.txt" :=
  c8_unconfigured_extension [(".js", [FilenameCase.Snake])]
    ["a.txt", "helloWorld.js"] "a.txt" (by decide)
    ⟨"helloWorld", [FilenameCase.Snake], "helloWorld.js"⟩ (by decide)

/-- C9: under the ignore pattern `*.rs` the single-wildcard check translates
to `.*.rs` and tests it against the basename only: files with basenames
`main.rs` and `lib.rs` are excluded, `Cargo.toml` is not, and a file inside a
directory named `dir.rs` is not excluded even though its full path would match
the translated regex. -/
theorem c9_single_glob :
    globSingle "*.rs".data = ".*.rs".data ∧
    is_ignored ⟨"src/main.rs", true⟩ ["*.rs"] = Except.ok true ∧
    is_ignored ⟨"src/lib.rs", true⟩ ["*.rs"] = Except.ok true ∧
    is_ignored ⟨"src/Cargo.toml", true⟩ ["*.rs"] = Except.ok false ∧
    is_ignored ⟨"dir.rs/notes.txt", true⟩ ["*.rs"] = Except.ok false := by
  decide

/-- C3 counterexample: the directory `backend` matches the ignore pattern
`**end` (its step-3 regex is `end$`), yet the file `backend/a.rs` inside its
subtree is still visited and even appears in the scan result — nothing is
pruned. -/
theorem c3_counterexample :
    is_ignored ⟨"backend", false⟩ ["**end"] = Except.ok true ∧
    inSubtree ⟨"backend", false⟩ ⟨"backend/a.rs", true⟩ = true ∧
    scan_dir [⟨"backend", false⟩, ⟨"backend/a.rs", true⟩] ["**end"] =
      Except.ok ["backend/a.rs"] := by
  decide

/-- C3 amended: the scan is a per-entry filter over the full traversal, not a
prune — when no pattern panics, the result is exactly the non-ignored regular
files of the whole entry list, so entries beneath an excluded directory are
still visited and are kept whenever they match no pattern themselves. -/
theorem c3_amended_filter (fs : List Entry) (ignore : List String)
    (hok : ∀ e ∈ fs, ∃ b, is_ignored e ignore = Except.ok b) :
    scan_dir fs ignore = Except.ok ((fs.filter (fun e =>
      e.isFile && decide (is_ignored e ignore = Except.ok false))).map
        (fun e => e.path)) := by
  induction fs with
  | nil => rfl
  | cons e es ih =>
    obtain ⟨b, hb⟩ := hok e (by simp)
    have ihr := ih (fun x hx => hok x (by simp [hx]))
    unfold scan_dir at ihr ⊢
    unfold scanGo
    rw [hb, ihr]
    cases b with
    | false =>
      by_cases hf : e.isFile = true <;> simp [List.filter_cons, hb, hf]
    | true => simp [List.filter_cons, hb]

/-- C3 amended witness: the `backend` scenario instantiates the filter
characterization. -/
theorem c3_amended_filter_witness :
    scan_dir [⟨"backend", false⟩, ⟨"backend/a.rs", true⟩] ["**end"] =
      Except.ok ((([⟨"backend", false⟩, ⟨"backend/a.rs", true⟩] :
          List Entry).filter (fun e =>
        e.isFile && decide (is_ignored e ["**end"] = Except.ok false))).map
          (fun e => e.path)) :=
  c3_amended_filter [⟨"backend", false⟩, ⟨"backend/a.rs", true⟩] ["**end"]
    (by decide)

/-- C2 counterexample: the ignore pattern `a/**(` translates in step 3 to the
invalid regex `a/($`, yet a scan with that pattern completes without any
error: the coarse segment check already excludes every entry, so the invalid
regex is never compiled and no configuration error is ever surfaced, before or
during the scan. -/
theorem c2_counterexample :
    compileRegex (globDouble "a/**(".data) = none ∧
    scan_dir [⟨"a", false⟩, ⟨"a/b.rs", true⟩] ["a/**("] = Except.ok [] := by
  decide

/-- C2 amended: the derived regex is compiled lazily per scanned entry, so a
malformed pattern (here `**(`, whose step-3 translation `($` is invalid) shows
up as a panic at the first entry whose checks reach the glob step — and when
the earlier substring checks decide every entry, the malformed pattern is
never compiled and the scan completes normally. -/
theorem c2_amended_lazy_panic :
    compileRegex (globDouble "**(".data) = none ∧
    scan_dir [⟨"b", false⟩, ⟨"b/c.rs", true⟩] ["**("] = Except.error () ∧
    scan_dir [⟨"a", false⟩, ⟨"a/b.rs", true⟩] ["a/**("] = Except.ok [] := by
  decide

/-- Every string contains the empty string (Rust `str::contains("")`). -/
lemma strContainsL_nil (l : List Char) : strContainsL l [] = true := by
  cases l <;> rfl

/-- A pattern with an empty `/`-segment makes the first check of
`is_ignored` fire on every entry. -/
lemma checkPattern_empty_segment (e : Entry) (p : String)
    (h : [] ∈ splitOnChar '/' p.data) : checkPattern e p = Except.ok true := by
  have hc : (splitOnChar '/' p.data).any
      (fun level => strContainsL e.path.data level) = true :=
    List.any_eq_true.mpr ⟨[], h, strContainsL_nil _⟩
  unfold checkPattern
  simp only []
  rw [if_pos hc]

/-- A safe pattern can never panic: its per-pattern check always returns a
boolean. -/
lemma checkPattern_safe (e : Entry) (q : String) (h : patternSafe q = true) :
    ∃ b, checkPattern e q = Except.ok b := by
  unfold patternSafe at h
  unfold checkPattern
  simp only []
  split_ifs with hA hB hC hD
  · exact ⟨true, rfl⟩
  · exact ⟨true, rfl⟩
  · rw [if_pos hC] at h
    cases hcr : compileRegex (globDouble q.data) with
    | none => rw [hcr] at h; exact absurd h (by simp)
    | some re => exact ⟨regexSearch re e.path.data, rfl⟩
  · rw [if_neg hC, if_pos hD] at h
    cases hcr : compileRegex (globSingle q.data) with
    | none => rw [hcr] at h; exact absurd h (by simp)
    | some re => exact ⟨regexSearch re (basenameL e.path.data), rfl⟩
  · exact ⟨false, rfl⟩

/-- If the patterns before `p` cannot panic and `p`'s check fires, the whole
`is_ignored` disjunction returns true. -/
lemma is_ignored_pre_true (e : Entry) (pre post : List String) (p : String)
    (hpre : ∀ q ∈ pre, ∃ b, checkPattern e q = Except.ok b)
    (hp : checkPattern e p = Except.ok true) :
    is_ignored e (pre ++ p :: post) = Except.ok true := by
  induction pre with
  | nil => simp [is_ignored, hp]
  | cons q qs ih =>
    obtain ⟨b, hb⟩ := hpre q (by simp)
    have ih' := ih (fun r hr => hpre r (by simp [hr]))
    cases b with
    | true => simp [is_ignored, hb]
    | false => simp [is_ignored, hb, ih']

/-- A scan in which every entry is ignored produces the empty file list. -/
lemma scanGo_all_ignored (ignore : List String) (fs : List Entry)
    (h : ∀ e ∈ fs, is_ignored e ignore = Except.ok true) :
    scanGo ignore fs = Except.ok [] := by
  induction fs with
  | nil => rfl
  | cons e es ih =>
    unfold scanGo
    rw [h e (by simp), ih (fun x hx => h x (by simp [hx]))]
    rfl

/-- C10: an ignore pattern that splits into an empty `/`-segment (leading or
trailing slash, doubled slash, or the empty pattern) excludes every entry via
the substring check, so — provided the patterns listed before it cannot panic
— the scan of any entry list returns the empty file set. -/
theorem c10_empty_segment_scans_empty (pre post : List String) (p : String)
    (fs : List Entry) (hseg : [] ∈ splitOnChar '/' p.data)
    (hpre : ∀ q ∈ pre, patternSafe q = true) :
    scan_dir fs (pre ++ p :: post) = Except.ok [] := by
  apply scanGo_all_ignored
  intro e _
  exact is_ignored_pre_true e pre post p
    (fun q hq => checkPattern_safe e q (hpre q hq))
    (checkPattern_empty_segment e p hseg)

/-- C10 witness: the pattern `"/"` alone empties a concrete scan. -/
theorem c10_empty_segment_scans_empty_witness :
    scan_dir [⟨"s", false⟩, ⟨"s/f.txt", true⟩] ["/"] = Except.ok [] :=
  c10_empty_segment_scans_empty [] [] "/" [⟨"s", false⟩, ⟨"s/f.txt", true⟩]
    (by decide) (by simp)

end Fnlint
